import Mathlib

/-!
Verification development for the Task/Mixture data pipeline of
`t5/data/utils.py` (module `t5.data.utils`).

The Python module is shallowly embedded: examples are association lists from
feature names to `List Int` (rank-1 int64 tensors), Python `ValueError`s and
the tf assertion raised by `_ensure_no_eos` become an explicit `Err` value in
`Except`, and Python slicing `v[:stop]` (which counts from the end for a
negative `stop`) is `pyTake`.  Registries and the `LazyTfdsLoader` memoization
table are explicit state.  `rate_num_examples` is embedded over the reals
(idealizing Python floats).
-/

namespace T5

/-- The errors `utils.py` raises: the `ValueError`s of the registry, the Task
and Mixture constructors and `_validate_dataset`, and the tf assertion of
`_ensure_no_eos` (the spec's `UnexpectedEosError`). -/
inductive Err where
  | invalidName
  | invalidTfdsName
  | duplicateRegistration
  | notFound
  | missingFeature (feat : String)
  | unexpectedEos (feat : String)
  | needRate
  | incompatibleFeatures
  | incompatibleSpm
deriving DecidableEq

/-- Python/TF slicing `v[:stop]`: a negative `stop` counts from the end of the
list (`v[:-1]` drops the last element), a nonnegative `stop` keeps the first
`stop` elements. -/
def pyTake (v : List α) (stop : Int) : List α :=
  if stop < 0 then v.take (v.length - stop.natAbs) else v.take stop.toNat

/-! ## Task-name validation: `_VALID_TASK_NAME_REGEX = re.compile(r"^[\w\d\._]+$")`

The character class `[\w\d\._]` is word characters, digits, dot and
underscore; restricted to ASCII (Python 2 default; Python 3 `\w` additionally
matches non-ASCII word characters, which this embedding does not model) it is
letters, digits, `_` and `.`.  Python's `$` matches at the end of the string
or just before one newline at the very end, and `.match` anchors at the
start, so the compiled regex accepts a nonempty run of class characters
optionally followed by a single trailing newline. -/

/-- One character of the class `[\w\d\._]` (ASCII). -/
def wordOrDot (c : Char) : Bool := c.isAlphanum || c == '_' || c == '.'

/-- `[\w\d\._]+` against a whole list of characters. -/
def matchPlus (l : List Char) : Bool := !l.isEmpty && l.all wordOrDot

/-- `_VALID_TASK_NAME_REGEX.match(name)` of `utils.py`: the anchored pattern
with Python's `$` semantics (also matches just before one trailing newline). -/
def validTaskName (s : String) : Bool :=
  matchPlus s.data || (s.data.getLast? == some '\n' && matchPlus s.data.dropLast)

/-- Modelled from the spec's words, for comparison: "accepts exactly the
strings over the alphabet `[A-Za-z0-9_.]` of length at least 1". -/
def validTaskNameClaim (s : String) : Bool := matchPlus s.data

/-! ## Output-feature normalization: `sorted(set(output_features or _DEFAULT_FEATURE_KEYS))`

Python sorts distinct strings by code-point lexicographic order; on the
embedding side that is `List.Lex` over the strings' character lists (the
order on `String` itself is stated through `·.data` because Mathlib's
iterator-based `String.decidableLE` does not reduce in the kernel). -/

/-- `_DEFAULT_FEATURE_KEYS` of `utils.py`. -/
def defaultFeatureKeys : List String := ["inputs", "targets"]

/-- Python's `<=` on strings: code-point lexicographic order on the
character lists. -/
def strDataLe (a b : String) : Prop := a.data ≤ b.data

instance : DecidableRel strDataLe :=
  fun a b => inferInstanceAs (Decidable (a.data ≤ b.data))

instance : IsTotal String strDataLe := ⟨fun a b => le_total a.data b.data⟩

instance : IsTrans String strDataLe := ⟨fun _ _ _ hab hbc => le_trans hab hbc⟩

instance : IsAntisymm String strDataLe :=
  ⟨fun _ _ hab hba => String.ext (le_antisymm hab hba)⟩

/-- Python `sorted(set(l))` for a list of strings: the distinct elements in
increasing code-point order. -/
def sortDedup (l : List String) : List String := l.dedup.insertionSort strDataLe

/-- `Task.__init__`'s feature normalization
`sorted(set(output_features or _DEFAULT_FEATURE_KEYS))`: Python's `or` takes
the default when `output_features` is `None` or an empty (falsy) list. -/
def normalizeOutputFeatures (ofs : Option (List String)) : List String :=
  sortDedup (match ofs with
    | none => defaultFeatureKeys
    | some [] => defaultFeatureKeys
    | some l => l)

/-- The fields of a `Task` the verified claims depend on.  `tfds_name` keeps
the raw dataset identity; preprocessors, metric functions and cache state
play no role in the claims and are omitted. -/
structure Task where
  name : String
  tfds_name : String
  output_features : List String
  sentencepiece_model_path : String
deriving DecidableEq

/-- `Task.__init__`: validates the name against `_VALID_TASK_NAME_REGEX`,
requires a `:` (version) in the TFDS name, and normalizes the output
features. -/
def mkTask (name tfds_name : String) (output_features : Option (List String))
    (sentencepiece_model_path : String) : Except Err Task :=
  if !validTaskName name then .error .invalidName
  else if !(tfds_name.data.contains ':') then .error .invalidTfdsName
  else .ok ⟨name, tfds_name, normalizeOutputFeatures output_features,
    sentencepiece_model_path⟩

/-! ## `DatasetProviderRegistry` / `TaskRegistry` -/

/-- `DatasetProviderRegistry.add`: the duplicate-name check runs before the
provider is constructed (`mk` is the outcome of `provider_cls(*args)`, which
may itself fail); on success the provider is stored under `name`.  The
`isinstance` check of the Python code is enforced by the type of `mk`. -/
def registryAdd (reg : List (String × α)) (name : String) (mk : Except Err α) :
    Except Err (List (String × α)) :=
  if (reg.lookup name).isSome then .error .duplicateRegistration
  else match mk with
    | .error e => .error e
    | .ok p => .ok (reg ++ [(name, p)])

/-- `DatasetProviderRegistry.get`. -/
def registryGet (reg : List (String × α)) (name : String) : Except Err α :=
  match reg.lookup name with
  | some p => .ok p
  | none => .error .notFound

/-- `TaskRegistry.add(name, **kwargs)`: registers `Task(name, **kwargs)`
under `name` (the registration key is also the constructed Task's name). -/
def taskRegistryAdd (reg : List (String × Task)) (name tfds_name : String)
    (output_features : Option (List String)) (sentencepiece_model_path : String) :
    Except Err (List (String × Task)) :=
  registryAdd reg name (mkTask name tfds_name output_features sentencepiece_model_path)

/-! ## Token preprocessing: `Task.preprocess_tokens` / `Task._validate_dataset`

An example after the token-preprocessing stage is an association list from
feature names to rank-1 int64 values; `preprocessTokens` is the per-example
action of `preprocess_tokens` on the stream the token preprocessors
produced: the schema validation of `_validate_dataset` (each declared output
feature present; the dtype and rank checks hold by the type of `Example`),
the `_ensure_no_eos` assertion, then `_trim_and_append_eos`. -/

/-- An example of the tokenized stream. -/
abbrev Example := List (String × List Int)

/-- The `for feat in self.output_features: if feat not in types: raise`
check of `_validate_dataset`. -/
def checkFeaturesPresent (feats : List String) (ex : Example) : Except Err Unit :=
  match feats with
  | [] => .ok ()
  | f :: rest =>
    if (ex.lookup f).isSome then checkFeaturesPresent rest ex
    else .error (.missingFeature f)

/-- `_ensure_no_eos` mapped over the example's items: a declared output
feature whose value contains the reserved EOS id 1 anywhere trips the
`tf.assert_none_equal` assertion; other features pass through unchecked. -/
def ensureNoEosExample (feats : List String) : Example → Except Err Example
  | [] => .ok []
  | (k, v) :: rest =>
    if feats.contains k && v.contains 1 then .error (.unexpectedEos k)
    else (ensureNoEosExample feats rest).map (fun r => (k, v) :: r)

/-- `_trim_and_append_eos` mapped over the example's items: each declared
output feature becomes `tf.concat([v[:sequence_length[feat]-1], [1]], 0)`;
features not in `output_features` are returned unmodified. -/
def trimAndAppendEos (feats : List String) (seqLen : String → Int) (ex : Example) :
    Example :=
  ex.map (fun p =>
    if feats.contains p.1 then (p.1, pyTake p.2 (seqLen p.1 - 1) ++ [1]) else p)

/-- `Task.preprocess_tokens` per example, after the Task's token
preprocessors have run: validation with `ensure_no_eos=True`, then trim and
append EOS. -/
def preprocessTokens (feats : List String) (seqLen : String → Int) (ex : Example) :
    Except Err Example := do
  checkFeaturesPresent feats ex
  let ex2 ← ensureNoEosExample feats ex
  pure (trimAndAppendEos feats seqLen ex2)

/-! ## `LazyTfdsLoader`: memoized-by-key construction

`LazyTfdsLoader.__new__` keeps a process-wide table `_MEMOIZED_INSTANCES`
from `(name, data_dir)` to the instance; `__init__` then (re)assigns the
instance's attributes.  The embedding makes the reference semantics
explicit: instances are heap addresses (`Nat`), the table maps keys to
addresses, and attribute reads and writes go through the heap. -/

/-- The attributes `__init__` assigns (`_builder` starts out `None` and is
filled in lazily by the `builder` property). -/
structure LoaderMeta where
  name : String
  data_dir : Option String
  builder : Option String
deriving DecidableEq

/-- The process-wide state: the `_MEMOIZED_INSTANCES` table, the heap of
instances, and the next fresh address. -/
structure TfdsState where
  instances : List ((String × Option String) × Nat)
  heap : Nat → Option LoaderMeta
  next : Nat

/-- `LazyTfdsLoader.__new__`: return the memoized instance for
`(name, data_dir)`, or allocate a fresh one and memoize it. -/
def loaderNew (st : TfdsState) (name : String) (data_dir : Option String) :
    TfdsState × Nat :=
  match st.instances.lookup (name, data_dir) with
  | some i => (st, i)
  | none =>
    ({ st with
        instances := ((name, data_dir), st.next) :: st.instances,
        next := st.next + 1 },
      st.next)

/-- `LazyTfdsLoader.__init__`: (re)assign the instance's attributes. -/
def loaderInit (st : TfdsState) (i : Nat) (name : String) (data_dir : Option String) :
    TfdsState :=
  { st with heap := fun j => if j = i then some ⟨name, data_dir, none⟩ else st.heap j }

/-- `LazyTfdsLoader(name, data_dir)`: `__new__` then `__init__` on the
returned instance. -/
def lazyTfdsLoader (st : TfdsState) (name : String) (data_dir : Option String) :
    TfdsState × Nat :=
  let p := loaderNew st name data_dir
  (loaderInit p.1 p.2 name data_dir, p.2)

/-- A mutation of cached metadata through a reference: the lazy `builder`
property assigning `self._builder`. -/
def setBuilder (st : TfdsState) (i : Nat) (b : String) : TfdsState :=
  match st.heap i with
  | some m => { st with heap := fun j => if j = i then some { m with builder := some b } else st.heap j }
  | none => st

/-- Reading the cached metadata through a reference. -/
def getBuilder (st : TfdsState) (i : Nat) : Option String :=
  match st.heap i with
  | some m => m.builder
  | none => none

/-! ## `Mixture`

`Mixture.__init__` resolves each listed task name through `TaskRegistry`
(requiring a rate, or the mixture-level default), then checks that all
member Tasks agree on `tuple(t.output_features)` and on
`sentencepiece_model_path` (the Python code compares `len(set(...)) != 1`).
A rate is "a float or a function from Task to float"; its value never
matters to the checks, so the rate type is a parameter `ρ`. -/

/-- The fields of a `Mixture`. -/
structure Mixture (ρ : Type) where
  tasks : List Task
  task_to_rate : List (String × ρ)

/-- The per-entry loop of `Mixture.__init__`: a bare name takes the default
rate (error if there is none), a pair carries its own; the name is resolved
through the task registry. -/
def mixtureResolve (reg : List (String × Task)) (dr : Option ρ) :
    List (String ⊕ String × ρ) → Except Err (List Task × List (String × ρ))
  | [] => .ok ([], [])
  | t :: rest => do
    let nr : String × ρ ← match t with
      | .inl name =>
        match dr with
        | none => .error Err.needRate
        | some r => .ok (name, r)
      | .inr p => .ok p
    let task : Task ← match reg.lookup nr.1 with
      | some tk => .ok tk
      | none => .error Err.notFound
    let tr ← mixtureResolve reg dr rest
    .ok (task :: tr.1, nr :: tr.2)

/-- The construction-time compatibility checks of `Mixture.__init__`:
`len(set(tuple(t.output_features) for t in tasks)) != 1` and
`len(set(t.sentencepiece_model_path for t in tasks)) != 1`. -/
def mixtureChecks (tasks : List Task) : Except Err Unit :=
  if (tasks.map (fun t => t.output_features)).dedup.length ≠ 1 then
    .error .incompatibleFeatures
  else if (tasks.map (fun t => t.sentencepiece_model_path)).dedup.length ≠ 1 then
    .error .incompatibleSpm
  else .ok ()

/-- `Mixture.__init__`. -/
def mixtureInit (reg : List (String × Task)) (ts : List (String ⊕ String × ρ))
    (dr : Option ρ) : Except Err (Mixture ρ) := do
  let tr ← mixtureResolve reg dr ts
  match mixtureChecks tr.1 with
  | .error e => .error e
  | .ok _ => .ok ⟨tr.1, tr.2⟩

/-- `Mixture.output_features`: reads the first member Task. -/
def mixtureOutputFeatures (m : Mixture ρ) : Option (List String) :=
  m.tasks.head?.map (fun t => t.output_features)

/-- `Mixture.sentencepiece_model_path`: reads the first member Task. -/
def mixtureSpmPath (m : Mixture ρ) : Option String :=
  m.tasks.head?.map (fun t => t.sentencepiece_model_path)

/-! ## Rate functions -/

/-- `rate_num_examples(task, maximum, temperature, scale)` over the reals
(`examples` stands for `task.get_cached_stats("train")["examples"]`).
Python's `if maximum:` is truthiness: `None` and `0` both skip the cap. -/
noncomputable def rateCap (ret : ℝ) : Option ℝ → ℝ
  | none => ret
  | some m => if m = 0 then ret else min ret m

/-- The final `if temperature != 1.0: ret = ret ** (1.0 / temperature)` step. -/
noncomputable def rateTemp (ret : ℝ) (temperature : ℝ) : ℝ :=
  if temperature = 1 then ret else ret ^ ((1 : ℝ) / temperature)

/-- `rate_num_examples` step by step: base value, cap, temperature. -/
noncomputable def rate_num_examples (examples : ℝ) (maximum : Option ℝ)
    (temperature : ℝ) (scale : ℝ) : ℝ :=
  rateTemp (rateCap (examples * scale) maximum) temperature

/-- Modelled from the claim's words, for comparison: the base value "capped
at maximum if maximum is given" (for every given maximum). -/
noncomputable def rateCapClaim (ret : ℝ) : Option ℝ → ℝ
  | none => ret
  | some m => min ret m

/-- Modelled from the claim's words, for comparison: the base value "capped
at maximum if maximum is given" (for every given maximum), then the same
temperature step. -/
noncomputable def rate_num_examples_claim (examples : ℝ) (maximum : Option ℝ)
    (temperature : ℝ) (scale : ℝ) : ℝ :=
  rateTemp (rateCapClaim (examples * scale) maximum) temperature

/-- A concrete Task value used by the closed witness statements. -/
def taskEx : Task := ⟨"task_a", "ds:1.0.0", ["inputs", "targets"], "sp.model"⟩

/-! ## Helper lemmas -/

theorem sortDedup_sorted (l : List String) : (sortDedup l).Sorted strDataLe :=
  List.sorted_insertionSort strDataLe l.dedup

theorem sortDedup_nodup (l : List String) : (sortDedup l).Nodup :=
  (List.perm_insertionSort strDataLe l.dedup).nodup_iff.mpr l.nodup_dedup

theorem sortDedup_toFinset (l : List String) : (sortDedup l).toFinset = l.toFinset := by
  have h1 : List.Perm (sortDedup l) l.dedup := List.perm_insertionSort strDataLe l.dedup
  have h2 : l.dedup.toFinset = l.toFinset := by
    apply List.toFinset_eq_iff_perm_dedup.mpr
    rw [List.dedup_eq_self.mpr l.nodup_dedup]
  rw [List.toFinset_eq_of_perm _ _ h1, h2]

theorem sortDedup_eq_iff (a b : List String) :
    sortDedup a = sortDedup b ↔ a.toFinset = b.toFinset := by
  constructor
  · intro h
    rw [← sortDedup_toFinset a, ← sortDedup_toFinset b, h]
  · intro h
    refine List.eq_of_perm_of_sorted ?_ (sortDedup_sorted a) (sortDedup_sorted b)
    have hperm : List.Perm a.dedup b.dedup := List.toFinset_eq_iff_perm_dedup.mp h
    exact (List.perm_insertionSort strDataLe a.dedup).trans
      (hperm.trans (List.perm_insertionSort strDataLe b.dedup).symm)

theorem dedup_replicate_succ {α : Type} [DecidableEq α] (n : ℕ) (a : α) :
    (List.replicate (n + 1) a).dedup = [a] := by
  induction n with
  | zero => simp
  | succ n ih =>
    rw [List.replicate_succ, List.dedup_cons_of_mem (List.mem_replicate.mpr ⟨n.succ_ne_zero, rfl⟩)]
    exact ih

theorem dedup_cons_length_one_iff {α : Type} [DecidableEq α] (x : α) (xs : List α) :
    (x :: xs).dedup.length = 1 ↔ ∀ y ∈ xs, y = x := by
  constructor
  · intro h
    obtain ⟨a, ha⟩ := List.length_eq_one.mp h
    have hx : x = a := by
      have hm : x ∈ (x :: xs).dedup := List.mem_dedup.mpr (List.mem_cons_self x xs)
      rw [ha] at hm; simpa using hm
    intro y hy
    have hm : y ∈ (x :: xs).dedup := List.mem_dedup.mpr (List.mem_cons_of_mem x hy)
    rw [ha] at hm; simp at hm
    exact hm.trans hx.symm
  · intro h
    have hrep : x :: xs = List.replicate (xs.length + 1) x := by
      have hall : ∀ y ∈ x :: xs, y = x := by
        intro y hy
        rcases List.mem_cons.mp hy with h1 | h2
        · exact h1
        · exact h y h2
      have := List.eq_replicate_of_mem hall
      simpa using this
    rw [hrep, dedup_replicate_succ]
    rfl

theorem lookup_append_self {α : Type} (reg : List (String × α)) (name : String) (p : α)
    (h : reg.lookup name = none) : (reg ++ [(name, p)]).lookup name = some p := by
  induction reg with
  | nil => simp [List.lookup]
  | cons q rest ih =>
    rw [List.cons_append, List.lookup]
    rw [List.lookup] at h
    by_cases hq : name == q.1
    · simp [hq] at h
    · simp only [hq]
      exact ih (by simpa [hq] using h)

theorem ensureNoEos_ok_eq (feats : List String) :
    ∀ ex ex2 : Example, ensureNoEosExample feats ex = .ok ex2 → ex2 = ex := by
  intro ex
  induction ex with
  | nil =>
    intro ex2 h
    simp only [ensureNoEosExample, Except.ok.injEq] at h
    exact h.symm
  | cons p rest ih =>
    intro ex2 h
    obtain ⟨k, v⟩ := p
    simp only [ensureNoEosExample] at h
    split at h
    · exact absurd h (by simp)
    · cases hr : ensureNoEosExample feats rest with
      | error e => rw [hr] at h; exact absurd h (by simp [Except.map])
      | ok r =>
        rw [hr] at h
        simp only [Except.map, Except.ok.injEq] at h
        rw [← h, ih r hr]

theorem contains_eq_true_iff {α : Type} [BEq α] [LawfulBEq α] (l : List α) (a : α) :
    l.contains a = true ↔ a ∈ l := by
  constructor
  · intro h
    obtain ⟨b, hb, he⟩ := List.contains_iff_exists_mem_beq.mp h
    exact (eq_of_beq he) ▸ hb
  · intro h
    exact List.contains_iff_exists_mem_beq.mpr ⟨a, h, by simp⟩

theorem ensureNoEos_ok_of_clean (feats : List String) :
    ∀ ex : Example, (∀ p ∈ ex, p.1 ∈ feats → (1 : Int) ∉ p.2) →
      ensureNoEosExample feats ex = .ok ex := by
  intro ex
  induction ex with
  | nil => intro _; rfl
  | cons p rest ih =>
    intro h
    obtain ⟨k, v⟩ := p
    have hcond : ¬(feats.contains k && v.contains 1) = true := by
      rw [Bool.and_eq_true, contains_eq_true_iff, contains_eq_true_iff]
      rintro ⟨hk, h1⟩
      exact h (k, v) (List.mem_cons_self _ _) hk h1
    simp only [ensureNoEosExample]
    rw [if_neg hcond, ih (fun p hp => h p (List.mem_cons_of_mem _ hp))]
    rfl

theorem ensureNoEos_err_of_dirty (feats : List String) :
    ∀ ex : Example, (∃ p ∈ ex, p.1 ∈ feats ∧ (1 : Int) ∈ p.2) →
      ∃ f, ensureNoEosExample feats ex = .error (.unexpectedEos f) := by
  intro ex
  induction ex with
  | nil =>
    rintro ⟨p, hp, -⟩
    cases hp
  | cons q rest ih =>
    rintro ⟨p, hp, hf, hv⟩
    obtain ⟨k, v⟩ := q
    by_cases hcond : (feats.contains k && v.contains 1) = true
    · refine ⟨k, ?_⟩
      simp only [ensureNoEosExample]
      rw [if_pos hcond]
    · rcases List.mem_cons.mp hp with heq | hrest
      · exfalso
        apply hcond
        rw [Bool.and_eq_true, contains_eq_true_iff, contains_eq_true_iff]
        subst heq
        exact ⟨hf, hv⟩
      · obtain ⟨f, hfe⟩ := ih ⟨p, hrest, hf, hv⟩
        refine ⟨f, ?_⟩
        simp only [ensureNoEosExample]
        rw [if_neg hcond, hfe]
        rfl

theorem preprocessTokens_ok_imp (feats : List String) (seqLen : String → Int)
    (ex ex2 : Example) (h : preprocessTokens feats seqLen ex = .ok ex2) :
    ex2 = trimAndAppendEos feats seqLen ex := by
  unfold preprocessTokens at h
  cases hc : checkFeaturesPresent feats ex with
  | error e =>
    rw [hc] at h
    exact absurd h (by simp [Bind.bind, Except.bind])
  | ok u =>
    cases u
    rw [hc] at h
    cases he : ensureNoEosExample feats ex with
    | error e =>
      rw [he] at h
      exact absurd h (by simp [Bind.bind, Except.bind])
    | ok exm =>
      rw [he] at h
      simp only [Bind.bind, Except.bind, Pure.pure, Except.pure, Except.ok.injEq] at h
      rw [← h, ensureNoEos_ok_eq feats ex exm he]

theorem preprocessTokens_of_clean (feats : List String) (seqLen : String → Int)
    (ex : Example) (hp : checkFeaturesPresent feats ex = .ok ())
    (hclean : ∀ p ∈ ex, p.1 ∈ feats → (1 : Int) ∉ p.2) :
    preprocessTokens feats seqLen ex = .ok (trimAndAppendEos feats seqLen ex) := by
  unfold preprocessTokens
  rw [hp, ensureNoEos_ok_of_clean feats ex hclean]
  rfl

theorem preprocessTokens_of_dirty (feats : List String) (seqLen : String → Int)
    (ex : Example) (hp : checkFeaturesPresent feats ex = .ok ())
    (hdirty : ∃ p ∈ ex, p.1 ∈ feats ∧ (1 : Int) ∈ p.2) :
    ∃ f, preprocessTokens feats seqLen ex = .error (.unexpectedEos f) := by
  obtain ⟨f, hf⟩ := ensureNoEos_err_of_dirty feats ex hdirty
  refine ⟨f, ?_⟩
  unfold preprocessTokens
  rw [hp, hf]
  rfl

theorem mixtureChecks_ok_iff (t0 : Task) (rest : List Task) :
    mixtureChecks (t0 :: rest) = .ok () ↔
      ((∀ t ∈ rest, t.output_features = t0.output_features) ∧
       (∀ t ∈ rest, t.sentencepiece_model_path = t0.sentencepiece_model_path)) := by
  have hf : ((t0 :: rest).map (fun t => t.output_features)).dedup.length = 1 ↔
      ∀ t ∈ rest, t.output_features = t0.output_features := by
    rw [List.map_cons, dedup_cons_length_one_iff]
    constructor
    · intro h t ht
      exact h _ (List.mem_map_of_mem _ ht)
    · rintro h y hy
      obtain ⟨t, ht, rfl⟩ := List.mem_map.mp hy
      exact h t ht
  have hs : ((t0 :: rest).map (fun t => t.sentencepiece_model_path)).dedup.length = 1 ↔
      ∀ t ∈ rest, t.sentencepiece_model_path = t0.sentencepiece_model_path := by
    rw [List.map_cons, dedup_cons_length_one_iff]
    constructor
    · intro h t ht
      exact h _ (List.mem_map_of_mem _ ht)
    · rintro h y hy
      obtain ⟨t, ht, rfl⟩ := List.mem_map.mp hy
      exact h t ht
  unfold mixtureChecks
  by_cases h1 : ((t0 :: rest).map (fun t => t.output_features)).dedup.length = 1
  · rw [if_neg (not_not_intro h1)]
    by_cases h2 : ((t0 :: rest).map (fun t => t.sentencepiece_model_path)).dedup.length = 1
    · rw [if_neg (not_not_intro h2)]
      exact ⟨fun _ => ⟨hf.mp h1, hs.mp h2⟩, fun _ => rfl⟩
    · rw [if_pos h2]
      exact ⟨fun h => Except.noConfusion h, fun ⟨_, hb⟩ => absurd (hs.mpr hb) h2⟩
  · rw [if_pos h1]
    exact ⟨fun h => Except.noConfusion h, fun ⟨ha, _⟩ => absurd (hf.mpr ha) h1⟩

theorem mixtureChecks_error_shape (tasks : List Task) (e : Err)
    (h : mixtureChecks tasks = .error e) :
    e = .incompatibleFeatures ∨ e = .incompatibleSpm := by
  unfold mixtureChecks at h
  split at h
  · injection h with h
    exact Or.inl h.symm
  · split at h
    · injection h with h
      exact Or.inr h.symm
    · exact Except.noConfusion h

theorem mixtureInit_eq_of_resolve {ρ : Type} (reg : List (String × Task))
    (ts : List (String ⊕ String × ρ)) (dr : Option ρ) (tasks : List Task)
    (rates : List (String × ρ)) (hres : mixtureResolve reg dr ts = .ok (tasks, rates)) :
    mixtureInit reg ts dr =
      match mixtureChecks tasks with
      | .error e => .error e
      | .ok _ => .ok ⟨tasks, rates⟩ := by
  unfold mixtureInit
  rw [hres]
  rfl

theorem loaderNew_lookup (st : TfdsState) (name : String) (dd : Option String) :
    ((loaderNew st name dd).1).instances.lookup (name, dd) =
      some (loaderNew st name dd).2 := by
  unfold loaderNew
  cases hl : st.instances.lookup (name, dd) with
  | some i => simp [hl]
  | none => simp [List.lookup]

theorem lazyTfdsLoader_lookup (st : TfdsState) (name : String) (dd : Option String) :
    ((lazyTfdsLoader st name dd).1).instances.lookup (name, dd) =
      some (lazyTfdsLoader st name dd).2 :=
  loaderNew_lookup st name dd

/-! ## Claim theorems -/

/-- Claim C1 (counterexample): with `sequence_length["targets"] = 0` the
Python slice `v[:-1]` drops the last element instead of keeping none, so the
output feature has length 1, not `min(0, original_length + 1) = 0`. -/
theorem spec_c1_cex :
    preprocessTokens ["targets"] (fun _ => 0) [("targets", [5])] =
      .ok [("targets", [1])] ∧
    ([(1 : Int)] : List Int).length ≠
      min ((0 : Int)).toNat (([(5 : Int)] : List Int).length + 1) := by
  constructor
  · rfl
  · decide

/-- Claim C1 (amended): for a sequence-length mapping assigning `L ≥ 1` to
every declared output feature, whenever `preprocess_tokens` succeeds each
declared output feature of the resulting example has length exactly
`min(L, original_length + 1)` and its final element is the reserved EOS id
1, while features not in `output_features` pass through unmodified. -/
theorem spec_c1_trim_shape (feats : List String) (seqLen : String → Int)
    (ex ex2 : Example) (hL : ∀ f ∈ feats, 1 ≤ seqLen f)
    (h : preprocessTokens feats seqLen ex = .ok ex2) :
    List.Forall₂ (fun p q : String × List Int =>
      p.1 = q.1 ∧
      (p.1 ∈ feats →
        q.2.length = min (seqLen p.1).toNat (p.2.length + 1) ∧
        q.2.getLast? = some 1) ∧
      (p.1 ∉ feats → q = p)) ex ex2 := by
  rw [preprocessTokens_ok_imp feats seqLen ex ex2 h]
  unfold trimAndAppendEos
  rw [List.forall₂_map_right_iff]
  rw [List.forall₂_same]
  intro p hp
  by_cases hpf : p.1 ∈ feats
  · rw [if_pos ((contains_eq_true_iff feats p.1).mpr hpf)]
    refine ⟨rfl, fun _ => ⟨?_, List.getLast?_concat _⟩, fun hn => absurd hpf hn⟩
    have h1 : 1 ≤ seqLen p.1 := hL p.1 hpf
    have hpt : pyTake p.2 (seqLen p.1 - 1) = p.2.take (seqLen p.1 - 1).toNat := by
      unfold pyTake
      rw [if_neg (by omega)]
    rw [List.length_append, hpt, List.length_take]
    simp only [List.length_cons, List.length_nil]
    omega
  · rw [if_neg (by rw [contains_eq_true_iff]; exact hpf)]
    exact ⟨rfl, fun hmem => absurd hmem hpf, fun _ => rfl⟩

/-- Claim C1 (witness): sequence length 2, `"targets"` of original length 3
is trimmed to `[5, 1]` (length `min 2 4`, final element 1), and the
non-output feature `"other"` passes through unmodified. -/
theorem spec_c1_witness :
    List.Forall₂ (fun p q : String × List Int =>
      p.1 = q.1 ∧
      (p.1 ∈ ["targets"] →
        q.2.length = min ((2 : Int)).toNat (p.2.length + 1) ∧
        q.2.getLast? = some 1) ∧
      (p.1 ∉ ["targets"] → q = p))
      [("targets", [5, 7, 8]), ("other", [9])]
      [("targets", [5, 1]), ("other", [9])] :=
  spec_c1_trim_shape ["targets"] (fun _ => 2)
    [("targets", [5, 7, 8]), ("other", [9])]
    [("targets", [5, 1]), ("other", [9])] (by decide) (by rfl)

/-- Claim C2 (counterexample): on an already-trimmed, EOS-terminated input
of the correct length, `preprocess_tokens` does not return the input
unchanged: the `ensure_no_eos` validation trips on the final EOS id and the
call raises (the tf assertion, the spec's UnexpectedEosError). -/
theorem spec_c2_cex :
    preprocessTokens ["targets"] (fun _ => 2) [("targets", [2, 1])] =
      .error (.unexpectedEos "targets") ∧
    preprocessTokens ["targets"] (fun _ => 2) [("targets", [2, 1])] ≠
      .ok [("targets", [2, 1])] := by
  have h1 : preprocessTokens ["targets"] (fun _ => 2) [("targets", [2, 1])] =
      .error (.unexpectedEos "targets") := rfl
  refine ⟨h1, fun h => ?_⟩
  rw [h1] at h
  exact Except.noConfusion h

/-- Claim C2 (amended): the trim-and-append-EOS stage alone is idempotent on
already-trimmed, EOS-terminated input of the correct length: for every
output feature whose value has length exactly `sequence_length[feature]`
and ends in the EOS id 1, `_trim_and_append_eos` returns the identical
sequence.  (`preprocess_tokens` as a whole instead rejects such input, by
`spec_c2_cex`.) -/
theorem spec_c2_trim_idempotent (feats : List String) (seqLen : String → Int)
    (ex : Example)
    (h : ∀ p ∈ ex, p.1 ∈ feats →
      seqLen p.1 = (p.2.length : Int) ∧ p.2.getLast? = some 1) :
    trimAndAppendEos feats seqLen ex = ex := by
  unfold trimAndAppendEos
  have hid : ∀ p ∈ ex,
      (if feats.contains p.1 then (p.1, pyTake p.2 (seqLen p.1 - 1) ++ [1]) else p) =
        id p := by
    intro p hp
    by_cases hpf : p.1 ∈ feats
    · rw [if_pos ((contains_eq_true_iff feats p.1).mpr hpf)]
      obtain ⟨hlen, hlast⟩ := h p hp hpf
      have hne : p.2 ≠ [] := by
        intro hnil
        rw [hnil] at hlast
        exact absurd hlast (by simp)
      have hlenpos : 1 ≤ p.2.length := List.length_pos.mpr hne
      have hpt : pyTake p.2 (seqLen p.1 - 1) = p.2.dropLast := by
        unfold pyTake
        rw [if_neg (by omega), List.dropLast_eq_take]
        congr 1
        omega
      rw [hpt, List.dropLast_append_getLast? 1 hlast]
      exact Prod.mk.eta
    · rw [if_neg (by rw [contains_eq_true_iff]; exact hpf)]
      rfl
  rw [List.map_congr_left hid, List.map_id]

/-- Claim C2 (witness): `_trim_and_append_eos` at sequence length 2 on the
already-processed value `[7, 1]` returns it identically. -/
theorem spec_c2_witness :
    trimAndAppendEos ["targets"] (fun _ => 2) [("targets", [7, 1])] =
      [("targets", [7, 1])] :=
  spec_c2_trim_idempotent ["targets"] (fun _ => 2) [("targets", [7, 1])] (by decide)

/-- Claim C3: when every declared output feature is present, the
token-preprocessing stage's output raises the unexpected-EOS error if and
only if some declared output feature contains the reserved EOS id 1
anywhere; in particular EOS ids in non-output features are not checked and
an EOS-free example is accepted. -/
theorem spec_c3_eos_detection (feats : List String) (seqLen : String → Int)
    (ex : Example) (hp : checkFeaturesPresent feats ex = .ok ()) :
    ((∃ f, preprocessTokens feats seqLen ex = .error (.unexpectedEos f)) ↔
      ∃ p ∈ ex, p.1 ∈ feats ∧ (1 : Int) ∈ p.2) ∧
    ((∃ ex2, preprocessTokens feats seqLen ex = .ok ex2) ↔
      ∀ p ∈ ex, p.1 ∈ feats → (1 : Int) ∉ p.2) := by
  by_cases hd : ∃ p ∈ ex, p.1 ∈ feats ∧ (1 : Int) ∈ p.2
  · obtain ⟨f, hf⟩ := preprocessTokens_of_dirty feats seqLen ex hp hd
    constructor
    · exact ⟨fun _ => hd, fun _ => ⟨f, hf⟩⟩
    · constructor
      · rintro ⟨ex2, hex2⟩
        rw [hf] at hex2
        exact absurd hex2 (by simp)
      · intro hclean
        obtain ⟨p, hpm, hpf, hp1⟩ := hd
        exact absurd hp1 (hclean p hpm hpf)
  · have hclean : ∀ p ∈ ex, p.1 ∈ feats → (1 : Int) ∉ p.2 := by
      push_neg at hd
      exact hd
    have hok := preprocessTokens_of_clean feats seqLen ex hp hclean
    constructor
    · constructor
      · rintro ⟨f, hf⟩
        rw [hok] at hf
        exact absurd hf (by simp)
      · intro h
        exact absurd h hd
    · exact ⟨fun _ => hclean, fun _ => ⟨_, hok⟩⟩

/-- Claim C3 (witness): the output feature `"targets"` is EOS-free, so the
example is accepted even though the non-output feature `"other"` contains
the id 1. -/
theorem spec_c3_witness :
    ((∃ f, preprocessTokens ["targets"] (fun _ => 3)
        [("targets", [5]), ("other", [1])] = .error (.unexpectedEos f)) ↔
      ∃ p ∈ ([("targets", [5]), ("other", [1])] : Example),
        p.1 ∈ ["targets"] ∧ (1 : Int) ∈ p.2) ∧
    ((∃ ex2, preprocessTokens ["targets"] (fun _ => 3)
        [("targets", [5]), ("other", [1])] = .ok ex2) ↔
      ∀ p ∈ ([("targets", [5]), ("other", [1])] : Example),
        p.1 ∈ ["targets"] → (1 : Int) ∉ p.2) :=
  spec_c3_eos_detection ["targets"] (fun _ => 3)
    [("targets", [5]), ("other", [1])] (by rfl)

/-- Claim C6 (counterexample): the string "abc\n" is accepted by
`_VALID_TASK_NAME_REGEX.match` (Python's `$` also matches just before a
trailing newline) although it is not a string over `[A-Za-z0-9_.]` of length
at least 1, so the claim's "accepts exactly" is false. -/
theorem spec_c6_cex :
    validTaskName "abc\n" = true ∧ validTaskNameClaim "abc\n" = false := by
  constructor <;> decide

/-- Claim C6 (amended): over ASCII strings, the Task-name validation accepts
exactly the nonempty strings over `[A-Za-z0-9_.]`, and additionally those
same strings followed by one trailing newline (a consequence of Python's `$`
semantics); every other string (for example one with a space or a slash) is
rejected. -/
theorem spec_c6_regex_semantics (s : String) :
    validTaskName s = true ↔
      ((s.data ≠ [] ∧ ∀ c ∈ s.data, wordOrDot c = true) ∨
       (∃ t, s.data = t ++ ['\n'] ∧ t ≠ [] ∧ ∀ c ∈ t, wordOrDot c = true)) := by
  unfold validTaskName matchPlus
  simp only [Bool.or_eq_true, Bool.and_eq_true, Bool.not_eq_true', List.all_eq_true,
    beq_iff_eq, List.isEmpty_eq_false]
  constructor
  · rintro (⟨hne, hall⟩ | ⟨hlast, hne, hall⟩)
    · exact Or.inl ⟨hne, hall⟩
    · refine Or.inr ⟨s.data.dropLast, ?_, hne, hall⟩
      exact (List.dropLast_append_getLast? '\n' hlast).symm
  · rintro (⟨hne, hall⟩ | ⟨t, ht, hne, hall⟩)
    · exact Or.inl ⟨hne, hall⟩
    · refine Or.inr ⟨?_, ?_, ?_⟩
      · rw [ht, List.getLast?_concat]
      · rw [ht, List.dropLast_concat]
        simpa using hne
      · rw [ht, List.dropLast_concat]
        exact hall

/-- Claim C9: a successfully constructed Task's stored `output_features`
list is sorted (Python string order) and duplicate-free, and a constructor
call with `output_features=None` or `output_features=[]` stores the default
`["inputs", "targets"]`. -/
theorem spec_c9_output_features (name tfds : String) (ofs : Option (List String))
    (spm : String) (t : Task) (h : mkTask name tfds ofs spm = .ok t) :
    t.output_features.Sorted strDataLe ∧ t.output_features.Nodup ∧
      (ofs = none → t.output_features = ["inputs", "targets"]) ∧
      (ofs = some [] → t.output_features = ["inputs", "targets"]) := by
  have ht : t.output_features = normalizeOutputFeatures ofs := by
    unfold mkTask at h
    split at h
    · exact absurd h (by simp)
    · split at h
      · exact absurd h (by simp)
      · cases h; rfl
  rw [ht]
  refine ⟨sortDedup_sorted _, sortDedup_nodup _, ?_, ?_⟩
  · rintro rfl
    decide
  · rintro rfl
    decide

/-- Claim C9 (witness): instantiated at `Task("task_a", "ds:1.0.0",
output_features=None, "sp.model")`. -/
theorem spec_c9_witness :
    (["inputs", "targets"] : List String).Sorted strDataLe ∧
      (["inputs", "targets"] : List String).Nodup ∧
      ((none : Option (List String)) = none →
        (["inputs", "targets"] : List String) = ["inputs", "targets"]) ∧
      ((none : Option (List String)) = some [] →
        (["inputs", "targets"] : List String) = ["inputs", "targets"]) :=
  spec_c9_output_features "task_a" "ds:1.0.0" none "sp.model"
    ⟨"task_a", "ds:1.0.0", ["inputs", "targets"], "sp.model"⟩ (by rfl)

/-- Claim C4: Mixture construction succeeds exactly when all member Tasks
share the same output-feature set (order-independent, since Task
construction stores a sorted deduplicated list) and the same
sentencepiece model path; otherwise it fails with the incompatible-mixture
error of `Mixture.__init__`. -/
theorem spec_c4_mixture_compat {ρ : Type} (reg : List (String × Task))
    (ts : List (String ⊕ String × ρ)) (dr : Option ρ) (t0 : Task)
    (rest : List Task) (rates : List (String × ρ))
    (hres : mixtureResolve reg dr ts = .ok (t0 :: rest, rates))
    (hnorm : ∀ t ∈ t0 :: rest, sortDedup t.output_features = t.output_features) :
    ((∃ m, mixtureInit reg ts dr = .ok m) ↔
      ∀ t ∈ rest, t.output_features.toFinset = t0.output_features.toFinset ∧
        t.sentencepiece_model_path = t0.sentencepiece_model_path) ∧
    ((¬ ∀ t ∈ rest, t.output_features.toFinset = t0.output_features.toFinset ∧
        t.sentencepiece_model_path = t0.sentencepiece_model_path) →
      mixtureInit reg ts dr = .error .incompatibleFeatures ∨
      mixtureInit reg ts dr = .error .incompatibleSpm) := by
  have hinit := mixtureInit_eq_of_resolve reg ts dr (t0 :: rest) rates hres
  have hfeat_iff : ∀ t ∈ rest,
      (t.output_features.toFinset = t0.output_features.toFinset ↔
        t.output_features = t0.output_features) := by
    intro t ht
    constructor
    · intro h
      have h2 := (sortDedup_eq_iff t.output_features t0.output_features).mpr h
      rwa [hnorm t (List.mem_cons_of_mem _ ht), hnorm t0 (List.mem_cons_self _ _)] at h2
    · intro h
      rw [h]
  have hbridge : (∀ t ∈ rest,
      t.output_features.toFinset = t0.output_features.toFinset ∧
        t.sentencepiece_model_path = t0.sentencepiece_model_path) ↔
      mixtureChecks (t0 :: rest) = .ok () := by
    rw [mixtureChecks_ok_iff]
    constructor
    · intro h
      exact ⟨fun t ht => (hfeat_iff t ht).mp (h t ht).1, fun t ht => (h t ht).2⟩
    · rintro ⟨hA, hB⟩ t ht
      exact ⟨(hfeat_iff t ht).mpr (hA t ht), hB t ht⟩
  constructor
  · constructor
    · rintro ⟨m, hm⟩
      rw [hinit] at hm
      cases hchk : mixtureChecks (t0 :: rest) with
      | error e =>
        rw [hchk] at hm
        exact Except.noConfusion hm
      | ok u =>
        cases u
        exact hbridge.mpr hchk
    · intro hall
      refine ⟨⟨t0 :: rest, rates⟩, ?_⟩
      rw [hinit, hbridge.mp hall]
  · intro hnall
    rw [hinit]
    cases hchk : mixtureChecks (t0 :: rest) with
    | ok u =>
      cases u
      exact absurd (hbridge.mpr hchk) hnall
    | error e =>
      rcases mixtureChecks_error_shape (t0 :: rest) e hchk with rfl | rfl
      · exact Or.inl rfl
      · exact Or.inr rfl

/-- Claim C4 (witness): a Mixture over the single registered Task
`taskEx` (with itself) satisfies the compatibility check. -/
theorem spec_c4_witness :
    ((∃ m, mixtureInit [("task_a", taskEx)] [Sum.inr ("task_a", (1 : Nat))] none =
        .ok m) ↔
      ∀ t ∈ ([] : List Task),
        t.output_features.toFinset = taskEx.output_features.toFinset ∧
        t.sentencepiece_model_path = taskEx.sentencepiece_model_path) ∧
    ((¬ ∀ t ∈ ([] : List Task),
        t.output_features.toFinset = taskEx.output_features.toFinset ∧
        t.sentencepiece_model_path = taskEx.sentencepiece_model_path) →
      mixtureInit [("task_a", taskEx)] [Sum.inr ("task_a", (1 : Nat))] none =
        .error .incompatibleFeatures ∨
      mixtureInit [("task_a", taskEx)] [Sum.inr ("task_a", (1 : Nat))] none =
        .error .incompatibleSpm) :=
  spec_c4_mixture_compat [("task_a", taskEx)] [Sum.inr ("task_a", (1 : Nat))] none
    taskEx [] [("task_a", (1 : Nat))] (by rfl) (by decide)

/-- Claim C5 (counterexample): `rate_num_examples` with `maximum = 0`
supplied does not cap at 0 (Python's `if maximum:` is falsy at 0), while
the claim's "capped at maximum if maximum is given" demands the cap. -/
theorem spec_c5_cex :
    rate_num_examples 10000 (some 0) 1 1 = 10000 ∧
    rate_num_examples_claim 10000 (some 0) 1 1 = 0 ∧
    rate_num_examples 10000 (some 0) 1 1 ≠ rate_num_examples_claim 10000 (some 0) 1 1 := by
  have h1 : rate_num_examples 10000 (some 0) 1 1 = 10000 := by
    unfold rate_num_examples
    show rateTemp (if (0 : ℝ) = 0 then (10000 : ℝ) * 1 else min ((10000 : ℝ) * 1) 0) 1 = 10000
    rw [if_pos rfl]
    unfold rateTemp
    rw [if_pos rfl]
    norm_num
  have h2 : rate_num_examples_claim 10000 (some 0) 1 1 = 0 := by
    unfold rate_num_examples_claim
    show rateTemp (min ((10000 : ℝ) * 1) 0) 1 = 0
    unfold rateTemp
    rw [if_pos rfl, min_eq_right (show (0 : ℝ) ≤ 10000 * 1 by norm_num)]
  refine ⟨h1, h2, ?_⟩
  rw [h1, h2]
  norm_num

/-- Claim C5 (amended): whenever `maximum` is absent or given and nonzero,
`rate_num_examples` is the cached example count times `scale`, capped at
`maximum` when given, then raised to `1/temperature` when
`temperature ≠ 1`, in that order; at 10000 examples, `maximum=500`,
`temperature=2`, `scale=1` the value is `sqrt 500`. -/
theorem spec_c5_rate (examples scale temperature : ℝ) (maximum : Option ℝ)
    (h : maximum = none ∨ ∃ m, maximum = some m ∧ m ≠ 0) :
    rate_num_examples examples maximum temperature scale =
      rate_num_examples_claim examples maximum temperature scale ∧
    rate_num_examples 10000 (some 500) 2 1 = Real.sqrt 500 := by
  constructor
  · rcases h with rfl | ⟨m, rfl, hm⟩
    · rfl
    · unfold rate_num_examples rate_num_examples_claim
      congr 1
      show (if m = 0 then examples * scale else min (examples * scale) m) =
        min (examples * scale) m
      rw [if_neg hm]
  · unfold rate_num_examples
    show rateTemp
      (if (500 : ℝ) = 0 then (10000 : ℝ) * 1 else min ((10000 : ℝ) * 1) 500) 2 =
      Real.sqrt 500
    rw [if_neg (show (500 : ℝ) ≠ 0 by norm_num),
      show (10000 : ℝ) * 1 = 10000 by norm_num,
      min_eq_right (show (500 : ℝ) ≤ 10000 by norm_num)]
    unfold rateTemp
    rw [if_neg (show (2 : ℝ) ≠ 1 by norm_num), Real.sqrt_eq_rpow]

/-- Claim C5 (witness): instantiated at `maximum = some 500`. -/
theorem spec_c5_witness :
    rate_num_examples 10000 (some 500) 2 1 =
      rate_num_examples_claim 10000 (some 500) 2 1 ∧
    rate_num_examples 10000 (some 500) 2 1 = Real.sqrt 500 :=
  spec_c5_rate 10000 1 2 (some 500) (Or.inr ⟨500, rfl, by norm_num⟩)

/-- Claim C7: `add` with an already-present name fails with the duplicate
registration error for every provider construction outcome `mk` (so the
provider is never consulted and no registry is produced); after a
successful `TaskRegistry.add`, `get` returns the stored Task whose `name`
equals the registration key; `get` on an absent name fails with the
not-found error. -/
theorem spec_c7_registry (reg : List (String × Task)) (name : String) :
    (∀ mk : Except Err Task, (reg.lookup name).isSome = true →
      registryAdd reg name mk = .error .duplicateRegistration) ∧
    (∀ (tfds : String) (ofs : Option (List String)) (spm : String)
      (reg2 : List (String × Task)),
      reg.lookup name = none →
      taskRegistryAdd reg name tfds ofs spm = .ok reg2 →
      ∃ t, registryGet reg2 name = .ok t ∧ t.name = name) ∧
    (reg.lookup name = none → registryGet reg name = .error .notFound) := by
  refine ⟨?_, ?_, ?_⟩
  · intro mk hdup
    unfold registryAdd
    rw [if_pos hdup]
  · intro tfds ofs spm reg2 hnew hadd
    unfold taskRegistryAdd registryAdd at hadd
    rw [if_neg (by rw [hnew]; simp)] at hadd
    cases hmk : mkTask name tfds ofs spm with
    | error e =>
      rw [hmk] at hadd
      exact Except.noConfusion hadd
    | ok t =>
      rw [hmk] at hadd
      injection hadd with hadd
      refine ⟨t, ?_, ?_⟩
      · unfold registryGet
        rw [← hadd, lookup_append_self reg name t hnew]
      · unfold mkTask at hmk
        split at hmk
        · exact Except.noConfusion hmk
        · split at hmk
          · exact Except.noConfusion hmk
          · cases hmk
            rfl
  · intro hnone
    unfold registryGet
    rw [hnone]

/-- Claim C8: constructing `LazyTfdsLoader` twice with the same
`(name, data_dir)` key returns the same instance (the same heap address),
and a metadata mutation made through the first reference is read back
through the second. -/
theorem spec_c8_memoized (st : TfdsState) (name : String) (dd : Option String)
    (b : String) :
    (lazyTfdsLoader (lazyTfdsLoader st name dd).1 name dd).2 =
      (lazyTfdsLoader st name dd).2 ∧
    getBuilder
      (setBuilder (lazyTfdsLoader (lazyTfdsLoader st name dd).1 name dd).1
        (lazyTfdsLoader st name dd).2 b)
      (lazyTfdsLoader (lazyTfdsLoader st name dd).1 name dd).2 = some b := by
  rcases hfirst : lazyTfdsLoader st name dd with ⟨st1, i1⟩
  have h1 : st1.instances.lookup (name, dd) = some i1 := by
    have h0 := lazyTfdsLoader_lookup st name dd
    rw [hfirst] at h0
    exact h0
  have hnew2 : loaderNew st1 name dd = (st1, i1) := by
    unfold loaderNew
    rw [h1]
  have hsecond : lazyTfdsLoader st1 name dd = (loaderInit st1 i1 name dd, i1) := by
    unfold lazyTfdsLoader
    rw [hnew2]
  show (lazyTfdsLoader st1 name dd).2 = i1 ∧
    getBuilder (setBuilder (lazyTfdsLoader st1 name dd).1 i1 b)
      (lazyTfdsLoader st1 name dd).2 = some b
  rw [hsecond]
  refine ⟨rfl, ?_⟩
  show getBuilder (setBuilder (loaderInit st1 i1 name dd) i1 b) i1 = some b
  have hheap : (loaderInit st1 i1 name dd).heap i1 = some ⟨name, dd, none⟩ := by
    unfold loaderInit
    simp
  unfold setBuilder
  rw [hheap]
  unfold getBuilder
  simp

/-- Claim C10: a Mixture over an empty task list always fails at
construction (the shared-output-features check cannot pass), so every
successfully constructed Mixture has at least one member Task and the
first-member accessors `output_features` and `sentencepiece_model_path`
are always defined. -/
theorem spec_c10_nonempty :
    (∀ (ρ : Type) (reg : List (String × Task)) (dr : Option ρ),
      mixtureInit reg ([] : List (String ⊕ String × ρ)) dr =
        .error .incompatibleFeatures) ∧
    (∀ (ρ : Type) (reg : List (String × Task)) (ts : List (String ⊕ String × ρ))
      (dr : Option ρ) (m : Mixture ρ),
      mixtureInit reg ts dr = .ok m →
      m.tasks ≠ [] ∧ (mixtureOutputFeatures m).isSome = true ∧
        (mixtureSpmPath m).isSome = true) := by
  constructor
  · intro ρ reg dr
    rfl
  · intro ρ reg ts dr m h
    cases hres : mixtureResolve reg dr ts with
    | error e =>
      unfold mixtureInit at h
      rw [hres] at h
      exact absurd h (by simp [Bind.bind, Except.bind])
    | ok tr =>
      obtain ⟨tasks, rates⟩ := tr
      rw [mixtureInit_eq_of_resolve reg ts dr tasks rates hres] at h
      cases hchk : mixtureChecks tasks with
      | error e =>
        rw [hchk] at h
        exact Except.noConfusion h
      | ok u =>
        cases u
        rw [hchk] at h
        injection h with h
        have hne : tasks ≠ [] := by
          intro hnil
          rw [hnil] at hchk
          exact absurd hchk (by simp [mixtureChecks])
        rw [← h]
        cases htasks : tasks with
        | nil => exact absurd htasks hne
        | cons a l =>
          refine ⟨by simp [htasks], ?_, ?_⟩
          · simp [mixtureOutputFeatures, htasks]
          · simp [mixtureSpmPath, htasks]


end T5
